import Mathlib

/-!
Verification of the tag-aware stream classifier of `CipherTalk`
(`src/pages/AISummaryWindow.tsx`).

The embedding models the three places the claims point at:

* the `onSummaryChunk` streaming handler inside `handleGenerate`
  (lines 180-226) — `stepChunk`, iterated by `runFrom` / `runStream`;
* the result-panel one-shot split IIFE (lines 602-616) — `classifyComplete`;
* the copy-summary button extraction (lines 400-421) — `copyExtract`;
* the missing-API-key guard of `handleGenerate` (lines 157-166) —
  `handleGenerate`.

Strings are modelled as `List Char`.  The JavaScript expression
`s.split(sep)[0]` is the text before the first occurrence of `sep`
(`partBefore`), and `s.split(sep)[1]` is the segment strictly between the
first and the second occurrence of `sep` (the tail after the first
occurrence when there is no second one, and `''` when `sep` does not occur
at all, matching the `|| ''` fallback and the guarded uses in the source) —
`partAfter`.  `s.includes(sep)` is `hasSub`.
-/

/-- The open delimiter literal `'<think>'` hard-coded in
`AISummaryWindow.tsx`. -/
def openTag : List Char := "<think>".toList

/-- The close delimiter literal `'</think>'` hard-coded in
`AISummaryWindow.tsx`. -/
def closeTag : List Char := "</think>".toList

/-- Split a string at the first occurrence of `sep` (JavaScript
`indexOf` semantics, scanning left to right): `some (before, after)`
where `after` starts right after the matched occurrence, `none` when
`sep` does not occur.  `sep` is always one of the two (non-empty) tag
literals. -/
def splitFirst (sep : List Char) : List Char → Option (List Char × List Char)
  | [] => none
  | c :: rest =>
    if sep.isPrefixOf (c :: rest) then some ([], (c :: rest).drop sep.length)
    else
      match splitFirst sep rest with
      | some p => some (c :: p.1, p.2)
      | none => none

/-- JavaScript `s.includes(sep)` for the tag literals. -/
def hasSub (sep s : List Char) : Bool := (splitFirst sep s).isSome

/-- JavaScript `s.split(sep)[0]`: the text before the first occurrence of
`sep` (the whole string when `sep` is absent). -/
def partBefore (sep s : List Char) : List Char :=
  match splitFirst sep s with
  | none => s
  | some p => p.1

/-- JavaScript `s.split(sep)[1]` under the `|| ''` fallback: the segment
strictly between the first and the second occurrence of `sep`; the whole
tail after the first occurrence when `sep` occurs exactly once; `''` when
`sep` is absent (in the source every use of `parts[1]` is either guarded
by `includes` or followed by `|| ''`). -/
def partAfter (sep s : List Char) : List Char :=
  match splitFirst sep s with
  | none => []
  | some p =>
    match splitFirst sep p.2 with
    | none => p.2
    | some q => q.1

/-- The mutable state of one generation run touched by the
`onSummaryChunk` handler: the `internalThinkMode` flag and the two React
string accumulators `thinkText` / `summaryText` (the `isThinking` /
`showThink` flags mirror `internalThinkMode` and are not modelled
separately). -/
@[ext] structure ClassifierState where
  internalThinkMode : Bool
  thinkText : List Char
  summaryText : List Char
deriving DecidableEq

/-- Run start: `setThinkText('')`, `setSummaryText('')`,
`internalThinkMode = false`. -/
def initState : ClassifierState := ⟨false, [], []⟩

/-- One invocation of the `onSummaryChunk` chunk handler
(`AISummaryWindow.tsx` lines 180-226), together with the text committed
to the two buffers during this invocation, concatenated in commit order
(first the pre-open part appended to `summaryText`, then the think part,
then the post-close part).  The source's `if (parts[0])` guard merely
skips appending the empty string, which is a no-op on the accumulator, so
it is embedded as an unconditional append. -/
def stepChunk (st : ClassifierState) (chunk : List Char) : ClassifierState × List Char :=
  let content := chunk
  let afterOpen :=
    if hasSub openTag content then
      ({ st with
          summaryText := st.summaryText ++ partBefore openTag content,
          internalThinkMode := true },
        partBefore openTag content,
        partAfter openTag content)
    else (st, [], content)
  let st1 := afterOpen.1
  let emitted0 := afterOpen.2.1
  let content1 := afterOpen.2.2
  if hasSub closeTag content1 then
    ({ st1 with
        internalThinkMode := false,
        thinkText := st1.thinkText ++ partBefore closeTag content1,
        summaryText := st1.summaryText ++ partAfter closeTag content1 },
      emitted0 ++ partBefore closeTag content1 ++ partAfter closeTag content1)
  else if st1.internalThinkMode then
    ({ st1 with thinkText := st1.thinkText ++ content1 }, emitted0 ++ content1)
  else
    ({ st1 with summaryText := st1.summaryText ++ content1 }, emitted0 ++ content1)

/-- Feed a sequence of chunks, in delivery order, from a given state. -/
def runFrom (st : ClassifierState) : List (List Char) → ClassifierState
  | [] => st
  | c :: rest => runFrom (stepChunk st c).1 rest

/-- Feed a sequence of chunks from the fresh run state. -/
def runStream (chunks : List (List Char)) : ClassifierState :=
  runFrom initState chunks

/-- The text committed to the two buffers while feeding a chunk sequence,
concatenated in the order the fragments were classified. -/
def emitFrom (st : ClassifierState) : List (List Char) → List Char
  | [] => []
  | c :: rest => (stepChunk st c).2 ++ emitFrom (stepChunk st c).1 rest

/-- Result of the result-panel one-shot split. -/
@[ext] structure SplitResult where
  thinkContent : List Char
  mainContent : List Char
  hasThink : Bool
deriving DecidableEq

/-- The result-panel split IIFE (`AISummaryWindow.tsx` lines 602-616):
when the stored text contains both tag literals, `pre = split('<think>')[0]`,
`rest = split('<think>')[1]`, `thinkContent = rest.split('</think>')[0]`,
`mainContent = pre + (rest.split('</think>')[1] || '')`; otherwise the
text is returned whole as `mainContent`. -/
def classifyComplete (content : List Char) : SplitResult :=
  if hasSub openTag content && hasSub closeTag content then
    { thinkContent := partBefore closeTag (partAfter openTag content),
      mainContent :=
        partBefore openTag content ++ partAfter closeTag (partAfter openTag content),
      hasThink := true }
  else
    { thinkContent := [], mainContent := content, hasThink := false }

/-- The copy-summary button extraction (`AISummaryWindow.tsx` lines
400-421), before the markdown-to-plaintext rendering: when the stored
text contains both tag literals, keep `content.split('</think>')[1] || ''`;
otherwise keep the text whole. -/
def copyExtract (content : List Char) : List Char :=
  if hasSub openTag content && hasSub closeTag content then
    partAfter closeTag content
  else content

/-- Observable outcome of `handleGenerate` up to the dispatch decision:
whether an error message was set, whether the `onSummaryChunk` listener
was registered, and whether `generateSummary` was invoked. -/
@[ext] structure GenerateOutcome where
  errorMsg : List Char
  subscribed : Bool
  dispatched : Bool
deriving DecidableEq

/-- JavaScript truthiness of the fetched API key: `!apiKey` holds for
`undefined` / `null` (modelled as `none`) and for the empty string. -/
def keyMissing : Option (List Char) → Bool
  | none => true
  | some k => k.isEmpty

/-- The configuration guard of `handleGenerate` (`AISummaryWindow.tsx`
lines 157-166 and 231-243): the fetched API key is checked first; when it
is missing the error message is set and the function returns before the
chunk listener is registered and before `generateSummary` is called;
otherwise the listener is registered and the generation request is
dispatched. -/
def handleGenerate (apiKey : Option (List Char)) : GenerateOutcome :=
  if keyMissing apiKey then
    { errorMsg := "请先在设置中配置 AI API 密钥".toList,
      subscribed := false,
      dispatched := false }
  else
    { errorMsg := [], subscribed := true, dispatched := true }

/-! ### Basic facts about `splitFirst` and its derived readers -/

theorem hasSub_of_splitFirst {sep s : List Char} {p : List Char × List Char}
    (h : splitFirst sep s = some p) : hasSub sep s = true := by
  simp [hasSub, h]

theorem hasSub_of_splitFirst_none {sep s : List Char}
    (h : splitFirst sep s = none) : hasSub sep s = false := by
  simp [hasSub, h]

theorem partBefore_eq {sep s a b : List Char}
    (h : splitFirst sep s = some (a, b)) : partBefore sep s = a := by
  simp [partBefore, h]

theorem partAfter_eq {sep s a b : List Char}
    (h1 : splitFirst sep s = some (a, b)) (h2 : splitFirst sep b = none) :
    partAfter sep s = b := by
  simp [partAfter, h1, h2]

theorem splitFirst_cons (sep : List Char) (c : Char) (rest : List Char) :
    splitFirst sep (c :: rest) =
      if sep.isPrefixOf (c :: rest) then some ([], (c :: rest).drop sep.length)
      else
        match splitFirst sep rest with
        | some p => some (c :: p.1, p.2)
        | none => none := rfl

/-- A successful first-occurrence split decomposes the string. -/
theorem splitFirst_shape (sep : List Char) :
    ∀ s a b : List Char, splitFirst sep s = some (a, b) → s = a ++ sep ++ b := by
  intro s
  induction s with
  | nil => intro a b h; simp [splitFirst] at h
  | cons c rest ih =>
    intro a b h
    rw [splitFirst_cons] at h
    by_cases hp : sep.isPrefixOf (c :: rest) = true
    · rw [if_pos hp] at h
      obtain ⟨t, ht⟩ := List.isPrefixOf_iff_prefix.mp hp
      simp only [Option.some.injEq, Prod.mk.injEq] at h
      obtain ⟨ha, hb⟩ := h
      have hdrop : (c :: rest).drop sep.length = t := by
        rw [← ht, List.drop_left]
      rw [← ha, ← hb, hdrop, List.nil_append, ht]
    · rw [if_neg hp] at h
      cases hsp : splitFirst sep rest with
      | none => rw [hsp] at h; simp at h
      | some p =>
        rw [hsp] at h
        obtain ⟨p1, p2⟩ := p
        simp only [Option.some.injEq, Prod.mk.injEq] at h
        obtain ⟨ha, hb⟩ := h
        have := ih p1 p2 hsp
        rw [← ha, ← hb]
        simp [this]

/-- A string that literally contains `sep` as the decomposition shows is
reported to contain it. -/
theorem hasSub_append (sep a b : List Char) (hne : sep ≠ []) :
    hasSub sep (a ++ sep ++ b) = true := by
  induction a with
  | nil =>
    simp only [List.nil_append]
    cases sep with
    | nil => exact absurd rfl hne
    | cons c cs =>
      have hp : (c :: cs).isPrefixOf (c :: (cs ++ b)) = true := by
        rw [List.isPrefixOf_iff_prefix]
        exact ⟨b, by simp⟩
      rw [hasSub, List.cons_append, splitFirst_cons, if_pos hp]
      rfl
  | cons c a ih =>
    rw [hasSub] at ih ⊢
    simp only [List.cons_append]
    rw [splitFirst_cons]
    by_cases hp : sep.isPrefixOf (c :: (a ++ sep ++ b)) = true
    · rw [if_pos hp]; rfl
    · rw [if_neg hp]
      obtain ⟨p, hps⟩ := Option.isSome_iff_exists.mp ih
      rw [hps]
      rfl

/-- Containment is preserved by embedding the string in a larger one. -/
theorem hasSub_mono (sep u s v : List Char) (hne : sep ≠ [])
    (h : hasSub sep s = true) : hasSub sep (u ++ s ++ v) = true := by
  rw [hasSub] at h
  obtain ⟨⟨a, b⟩, hab⟩ := Option.isSome_iff_exists.mp h
  have hs := splitFirst_shape sep s a b hab
  have happ := hasSub_append sep (u ++ a) (b ++ v) hne
  have : u ++ s ++ v = (u ++ a) ++ sep ++ (b ++ v) := by
    rw [hs]; simp [List.append_assoc]
  rw [this]
  exact happ

/-- Every member of a chunk list embeds into the concatenation. -/
theorem flatten_mem_decomp {f : List Char} {L : List (List Char)} (h : f ∈ L) :
    ∃ u v, L.flatten = u ++ f ++ v := by
  obtain ⟨s, t, rfl⟩ := List.append_of_mem h
  exact ⟨s.flatten, t.flatten, by simp⟩

/-- A chunk of a tag-free stream is itself tag-free. -/
theorem hasSub_chunk_of_flatten {sep : List Char} (hne : sep ≠ [])
    {chunks : List (List Char)} {f : List Char}
    (hf : f ∈ chunks) (h : hasSub sep chunks.flatten = false) :
    hasSub sep f = false := by
  by_contra hc
  have hc' : hasSub sep f = true := by
    cases hcc : hasSub sep f with
    | false => exact absurd hcc hc
    | true => rfl
  obtain ⟨u, v, huv⟩ := flatten_mem_decomp hf
  have hm := hasSub_mono sep u f v hne hc'
  rw [huv, hm] at h
  exact Bool.noConfusion h


/-! ### Evaluating one chunk-handler invocation on the three chunk shapes -/

/-- A chunk with no complete tag literal, arriving in NORMAL mode, is
appended whole to the answer buffer. -/
theorem stepChunk_plainN (st : ClassifierState) (c : List Char)
    (hm : st.internalThinkMode = false)
    (ho : hasSub openTag c = false) (hc : hasSub closeTag c = false) :
    stepChunk st c = ({ st with summaryText := st.summaryText ++ c }, c) := by
  simp [stepChunk, ho, hc, hm]

/-- A chunk with no complete tag literal, arriving in THINKING mode, is
appended whole to the think buffer. -/
theorem stepChunk_plainT (st : ClassifierState) (c : List Char)
    (hm : st.internalThinkMode = true)
    (ho : hasSub openTag c = false) (hc : hasSub closeTag c = false) :
    stepChunk st c = ({ st with thinkText := st.thinkText ++ c }, c) := by
  simp [stepChunk, ho, hc, hm]

/-- A chunk of the form `x1 <think> b1` whose only open-tag occurrence is
the displayed one and whose scanned remainder `b1` holds no close tag:
`x1` goes to the answer buffer, the mode flips to THINKING, `b1` goes to
the think buffer.  This holds for any current state. -/
theorem stepChunk_openEval (st : ClassifierState) (x1 b1 : List Char)
    (hx : splitFirst openTag (x1 ++ openTag ++ b1) = some (x1, b1))
    (hb1o : splitFirst openTag b1 = none)
    (hb1c : hasSub closeTag b1 = false) :
    stepChunk st (x1 ++ openTag ++ b1) =
      ({ internalThinkMode := true, thinkText := st.thinkText ++ b1,
         summaryText := st.summaryText ++ x1 }, x1 ++ b1) := by
  have h1 : hasSub openTag (x1 ++ openTag ++ b1) = true := hasSub_of_splitFirst hx
  have h2 : partBefore openTag (x1 ++ openTag ++ b1) = x1 := partBefore_eq hx
  have h3 : partAfter openTag (x1 ++ openTag ++ b1) = b1 := partAfter_eq hx hb1o
  rw [List.append_assoc] at h1 h2 h3
  simp [stepChunk, h1, h2, h3, hb1c]

/-- A chunk of the form `b2 </think> c1` holding no open tag and no
second close tag: `b2` goes to the think buffer, the mode becomes
NORMAL, `c1` goes to the answer buffer.  This holds for any current
state, in particular also in NORMAL mode. -/
theorem stepChunk_closeEval (st : ClassifierState) (b2 c1 : List Char)
    (hyo : hasSub openTag (b2 ++ closeTag ++ c1) = false)
    (hy : splitFirst closeTag (b2 ++ closeTag ++ c1) = some (b2, c1))
    (hc1 : splitFirst closeTag c1 = none) :
    stepChunk st (b2 ++ closeTag ++ c1) =
      ({ internalThinkMode := false, thinkText := st.thinkText ++ b2,
         summaryText := st.summaryText ++ c1 }, b2 ++ c1) := by
  have h1 : hasSub closeTag (b2 ++ closeTag ++ c1) = true := hasSub_of_splitFirst hy
  have h2 : partBefore closeTag (b2 ++ closeTag ++ c1) = b2 := partBefore_eq hy
  have h3 : partAfter closeTag (b2 ++ closeTag ++ c1) = c1 := partAfter_eq hy hc1
  rw [List.append_assoc] at h1 h2 h3 hyo
  simp [stepChunk, hyo, h1, h2, h3]

/-! ### Running whole chunk sequences -/

theorem runFrom_append (st : ClassifierState) (L1 L2 : List (List Char)) :
    runFrom st (L1 ++ L2) = runFrom (runFrom st L1) L2 := by
  induction L1 generalizing st with
  | nil => simp [runFrom]
  | cons c rest ih => simp [runFrom, ih]

theorem runFrom_singleton (st : ClassifierState) (c : List Char) :
    runFrom st [c] = (stepChunk st c).1 := rfl

theorem emitFrom_append (st : ClassifierState) (L1 L2 : List (List Char)) :
    emitFrom st (L1 ++ L2) = emitFrom st L1 ++ emitFrom (runFrom st L1) L2 := by
  induction L1 generalizing st with
  | nil => simp [emitFrom, runFrom]
  | cons c rest ih => simp [emitFrom, runFrom, ih]

theorem emitFrom_singleton (st : ClassifierState) (c : List Char) :
    emitFrom st [c] = (stepChunk st c).2 := by
  simp [emitFrom]

/-- A tag-free chunk sequence arriving in NORMAL mode is appended whole
to the answer buffer and leaves the mode NORMAL. -/
theorem runFrom_plainN (P : List (List Char))
    (hP : ∀ f ∈ P, hasSub openTag f = false ∧ hasSub closeTag f = false)
    (st : ClassifierState) (hm : st.internalThinkMode = false) :
    runFrom st P = ⟨false, st.thinkText, st.summaryText ++ P.flatten⟩ := by
  induction P generalizing st with
  | nil =>
    obtain ⟨m, t, s⟩ := st
    simp only [ClassifierState.mk.injEq] at hm ⊢
    simp [runFrom, hm]
  | cons c rest ih =>
    have hc := hP c (List.mem_cons_self _ _)
    rw [runFrom, stepChunk_plainN st c hm hc.1 hc.2]
    show runFrom { st with summaryText := st.summaryText ++ c } rest = _
    rw [ih (fun f hf => hP f (List.mem_cons_of_mem _ hf))
          { st with summaryText := st.summaryText ++ c } hm]
    simp

/-- A tag-free chunk sequence arriving in THINKING mode is appended whole
to the think buffer and leaves the mode THINKING. -/
theorem runFrom_plainT (P : List (List Char))
    (hP : ∀ f ∈ P, hasSub openTag f = false ∧ hasSub closeTag f = false)
    (st : ClassifierState) (hm : st.internalThinkMode = true) :
    runFrom st P = ⟨true, st.thinkText ++ P.flatten, st.summaryText⟩ := by
  induction P generalizing st with
  | nil =>
    obtain ⟨m, t, s⟩ := st
    simp only [ClassifierState.mk.injEq] at hm ⊢
    simp [runFrom, hm]
  | cons c rest ih =>
    have hc := hP c (List.mem_cons_self _ _)
    rw [runFrom, stepChunk_plainT st c hm hc.1 hc.2]
    show runFrom { st with thinkText := st.thinkText ++ c } rest = _
    rw [ih (fun f hf => hP f (List.mem_cons_of_mem _ hf))
          { st with thinkText := st.thinkText ++ c } hm]
    simp

/-- A tag-free chunk sequence is emitted verbatim, whatever the mode. -/
theorem emitFrom_plain (P : List (List Char))
    (hP : ∀ f ∈ P, hasSub openTag f = false ∧ hasSub closeTag f = false)
    (st : ClassifierState) :
    emitFrom st P = P.flatten := by
  induction P generalizing st with
  | nil => simp [emitFrom]
  | cons c rest ih =>
    have hc := hP c (List.mem_cons_self _ _)
    have hrest := fun f hf => hP f (List.mem_cons_of_mem _ hf)
    rw [emitFrom]
    cases hm : st.internalThinkMode with
    | false =>
      rw [stepChunk_plainN st c hm hc.1 hc.2]
      show c ++ emitFrom { st with summaryText := st.summaryText ++ c } rest = _
      rw [ih hrest]
      simp
    | true =>
      rw [stepChunk_plainT st c hm hc.1 hc.2]
      show c ++ emitFrom { st with thinkText := st.thinkText ++ c } rest = _
      rw [ih hrest]
      simp

/-- Running tag-free chunks, then a chunk carrying the single open tag,
then further tag-free chunks, from any NORMAL-mode state: the classifier
ends in THINKING mode with all post-open text in the think buffer. -/
theorem runFrom_phaseOpen (st : ClassifierState) (hm : st.internalThinkMode = false)
    (P M : List (List Char)) (x1 b1 : List Char)
    (hP : ∀ f ∈ P, hasSub openTag f = false ∧ hasSub closeTag f = false)
    (hM : ∀ f ∈ M, hasSub openTag f = false ∧ hasSub closeTag f = false)
    (hx : splitFirst openTag (x1 ++ openTag ++ b1) = some (x1, b1))
    (hb1o : splitFirst openTag b1 = none)
    (hb1c : hasSub closeTag b1 = false) :
    runFrom st (P ++ (x1 ++ openTag ++ b1) :: M) =
      ⟨true, st.thinkText ++ b1 ++ M.flatten, st.summaryText ++ P.flatten ++ x1⟩ := by
  rw [runFrom_append st P ((x1 ++ openTag ++ b1) :: M), runFrom_plainN P hP st hm]
  rw [runFrom]
  rw [stepChunk_openEval ⟨false, st.thinkText, st.summaryText ++ P.flatten⟩ x1 b1 hx hb1o hb1c]
  show runFrom ⟨true, st.thinkText ++ b1, st.summaryText ++ P.flatten ++ x1⟩ M = _
  rw [runFrom_plainT M hM ⟨true, st.thinkText ++ b1, st.summaryText ++ P.flatten ++ x1⟩ rfl]

/-- A well-formed run: tag-free prefix chunks, the chunk carrying the
single open tag, tag-free middle chunks, the chunk carrying the single
close tag, tag-free suffix chunks.  The final state is NORMAL with think
buffer `b1 ++ M.flatten ++ b2` and answer buffer
`P.flatten ++ x1 ++ c1 ++ S.flatten`. -/
theorem runFrom_full (st : ClassifierState) (hm : st.internalThinkMode = false)
    (P M S : List (List Char)) (x1 b1 b2 c1 : List Char)
    (hP : ∀ f ∈ P, hasSub openTag f = false ∧ hasSub closeTag f = false)
    (hM : ∀ f ∈ M, hasSub openTag f = false ∧ hasSub closeTag f = false)
    (hS : ∀ f ∈ S, hasSub openTag f = false ∧ hasSub closeTag f = false)
    (hx : splitFirst openTag (x1 ++ openTag ++ b1) = some (x1, b1))
    (hb1o : splitFirst openTag b1 = none)
    (hb1c : hasSub closeTag b1 = false)
    (hyo : hasSub openTag (b2 ++ closeTag ++ c1) = false)
    (hy : splitFirst closeTag (b2 ++ closeTag ++ c1) = some (b2, c1))
    (hc1 : splitFirst closeTag c1 = none) :
    runFrom st (P ++ (x1 ++ openTag ++ b1) :: M ++ (b2 ++ closeTag ++ c1) :: S) =
      ⟨false, st.thinkText ++ b1 ++ M.flatten ++ b2,
        st.summaryText ++ P.flatten ++ x1 ++ c1 ++ S.flatten⟩ := by
  rw [runFrom_append, runFrom_phaseOpen st hm P M x1 b1 hP hM hx hb1o hb1c, runFrom]
  rw [stepChunk_closeEval
        ⟨true, st.thinkText ++ b1 ++ M.flatten, st.summaryText ++ P.flatten ++ x1⟩
        b2 c1 hyo hy hc1]
  show runFrom
      ⟨false, st.thinkText ++ b1 ++ M.flatten ++ b2, st.summaryText ++ P.flatten ++ x1 ++ c1⟩
      S = _
  rw [runFrom_plainN S hS
        ⟨false, st.thinkText ++ b1 ++ M.flatten ++ b2, st.summaryText ++ P.flatten ++ x1 ++ c1⟩
        rfl]

/-- Emitted text of a well-formed run, in classification order: the whole
input minus the two tag literals. -/
theorem emitFrom_full (st : ClassifierState) (hm : st.internalThinkMode = false)
    (P M S : List (List Char)) (x1 b1 b2 c1 : List Char)
    (hP : ∀ f ∈ P, hasSub openTag f = false ∧ hasSub closeTag f = false)
    (hM : ∀ f ∈ M, hasSub openTag f = false ∧ hasSub closeTag f = false)
    (hS : ∀ f ∈ S, hasSub openTag f = false ∧ hasSub closeTag f = false)
    (hx : splitFirst openTag (x1 ++ openTag ++ b1) = some (x1, b1))
    (hb1o : splitFirst openTag b1 = none)
    (hb1c : hasSub closeTag b1 = false)
    (hyo : hasSub openTag (b2 ++ closeTag ++ c1) = false)
    (hy : splitFirst closeTag (b2 ++ closeTag ++ c1) = some (b2, c1))
    (hc1 : splitFirst closeTag c1 = none) :
    emitFrom st (P ++ (x1 ++ openTag ++ b1) :: M ++ (b2 ++ closeTag ++ c1) :: S) =
      P.flatten ++ x1 ++ b1 ++ M.flatten ++ b2 ++ c1 ++ S.flatten := by
  rw [emitFrom_append, emitFrom_append]
  rw [runFrom_phaseOpen st hm P M x1 b1 hP hM hx hb1o hb1c]
  rw [runFrom_plainN P hP st hm]
  rw [emitFrom_plain P hP st, emitFrom]
  rw [stepChunk_openEval ⟨false, st.thinkText, st.summaryText ++ P.flatten⟩ x1 b1 hx hb1o hb1c]
  show P.flatten ++ ((x1 ++ b1) ++
      emitFrom ⟨true, st.thinkText ++ b1, st.summaryText ++ P.flatten ++ x1⟩ M) ++
      emitFrom ⟨true, st.thinkText ++ b1 ++ M.flatten, st.summaryText ++ P.flatten ++ x1⟩
        ((b2 ++ closeTag ++ c1) :: S) = _
  rw [emitFrom_plain M hM, emitFrom]
  rw [stepChunk_closeEval
        ⟨true, st.thinkText ++ b1 ++ M.flatten, st.summaryText ++ P.flatten ++ x1⟩
        b2 c1 hyo hy hc1]
  show P.flatten ++ ((x1 ++ b1) ++ M.flatten) ++ ((b2 ++ c1) ++
      emitFrom ⟨false, st.thinkText ++ b1 ++ M.flatten ++ b2,
        st.summaryText ++ P.flatten ++ x1 ++ c1⟩ S) = _
  rw [emitFrom_plain S hS]
  simp [List.append_assoc]

/-- The result-panel split of a well-formed stored text
`A <think> B </think> C` (each tag occurring exactly once, in that
order): think is `B`, main is `A ++ C`. -/
theorem classifyComplete_wf (A B C : List Char)
    (h1 : splitFirst openTag (A ++ openTag ++ B ++ closeTag ++ C) = some (A, B ++ closeTag ++ C))
    (h2 : splitFirst openTag (B ++ closeTag ++ C) = none)
    (h3 : splitFirst closeTag (B ++ closeTag ++ C) = some (B, C))
    (h4 : splitFirst closeTag C = none) :
    classifyComplete (A ++ openTag ++ B ++ closeTag ++ C) = ⟨B, A ++ C, true⟩ := by
  have ho : hasSub openTag (A ++ openTag ++ B ++ closeTag ++ C) = true :=
    hasSub_of_splitFirst h1
  have hc : hasSub closeTag (A ++ openTag ++ B ++ closeTag ++ C) = true :=
    hasSub_append closeTag (A ++ openTag ++ B) C (by decide)
  have hpre := partBefore_eq h1
  have hrest := partAfter_eq h1 h2
  have hthink := partBefore_eq h3
  have hafter := partAfter_eq h3 h4
  simp only [classifyComplete, ho, hc, hpre, hrest, hthink, hafter, Bool.and_self, if_true]

/-- A chunk of the form `z1 <think> B </think> z2` carrying both tag
occurrences (spec §4.1 allows both markers inside one fragment): `z1`
goes to the answer buffer, `B` to the think buffer, `z2` back to the
answer buffer, and the mode ends NORMAL.  This holds for any current
state. -/
theorem stepChunk_openCloseEval (st : ClassifierState) (z1 B z2 : List Char)
    (hz : splitFirst openTag (z1 ++ openTag ++ B ++ closeTag ++ z2)
        = some (z1, B ++ closeTag ++ z2))
    (hro : splitFirst openTag (B ++ closeTag ++ z2) = none)
    (hcy : splitFirst closeTag (B ++ closeTag ++ z2) = some (B, z2))
    (hz2 : splitFirst closeTag z2 = none) :
    stepChunk st (z1 ++ openTag ++ B ++ closeTag ++ z2) =
      ({ internalThinkMode := false, thinkText := st.thinkText ++ B,
         summaryText := st.summaryText ++ z1 ++ z2 }, z1 ++ B ++ z2) := by
  have h1 : hasSub openTag (z1 ++ openTag ++ B ++ closeTag ++ z2) = true :=
    hasSub_of_splitFirst hz
  have h2 : partBefore openTag (z1 ++ openTag ++ B ++ closeTag ++ z2) = z1 :=
    partBefore_eq hz
  have h3 : partAfter openTag (z1 ++ openTag ++ B ++ closeTag ++ z2)
      = B ++ closeTag ++ z2 := partAfter_eq hz hro
  have h4 : hasSub closeTag (B ++ closeTag ++ z2) = true := hasSub_of_splitFirst hcy
  have h5 : partBefore closeTag (B ++ closeTag ++ z2) = B := partBefore_eq hcy
  have h6 : partAfter closeTag (B ++ closeTag ++ z2) = z2 := partAfter_eq hcy hz2
  simp only [List.append_assoc] at h1 h2 h3 h4 h5 h6
  simp [stepChunk, h1, h2, h3, h4, h5, h6]

/-- A well-formed run whose two tag occurrences sit inside the same
fragment: tag-free prefix chunks, the chunk `z1 <think> B </think> z2`,
tag-free suffix chunks. -/
theorem runFrom_sameFrag (st : ClassifierState) (hm : st.internalThinkMode = false)
    (P S : List (List Char)) (z1 B z2 : List Char)
    (hP : ∀ f ∈ P, hasSub openTag f = false ∧ hasSub closeTag f = false)
    (hS : ∀ f ∈ S, hasSub openTag f = false ∧ hasSub closeTag f = false)
    (hz : splitFirst openTag (z1 ++ openTag ++ B ++ closeTag ++ z2)
        = some (z1, B ++ closeTag ++ z2))
    (hro : splitFirst openTag (B ++ closeTag ++ z2) = none)
    (hcy : splitFirst closeTag (B ++ closeTag ++ z2) = some (B, z2))
    (hz2 : splitFirst closeTag z2 = none) :
    runFrom st (P ++ (z1 ++ openTag ++ B ++ closeTag ++ z2) :: S) =
      ⟨false, st.thinkText ++ B, st.summaryText ++ P.flatten ++ z1 ++ z2 ++ S.flatten⟩ := by
  rw [runFrom_append, runFrom_plainN P hP st hm, runFrom]
  rw [stepChunk_openCloseEval ⟨false, st.thinkText, st.summaryText ++ P.flatten⟩
        z1 B z2 hz hro hcy hz2]
  show runFrom ⟨false, st.thinkText ++ B, st.summaryText ++ P.flatten ++ z1 ++ z2⟩ S = _
  rw [runFrom_plainN S hS
        ⟨false, st.thinkText ++ B, st.summaryText ++ P.flatten ++ z1 ++ z2⟩ rfl]

/-- Emitted text of a well-formed run whose two tag occurrences sit
inside the same fragment: the whole input minus the two tag literals. -/
theorem emitFrom_sameFrag (st : ClassifierState) (hm : st.internalThinkMode = false)
    (P S : List (List Char)) (z1 B z2 : List Char)
    (hP : ∀ f ∈ P, hasSub openTag f = false ∧ hasSub closeTag f = false)
    (hS : ∀ f ∈ S, hasSub openTag f = false ∧ hasSub closeTag f = false)
    (hz : splitFirst openTag (z1 ++ openTag ++ B ++ closeTag ++ z2)
        = some (z1, B ++ closeTag ++ z2))
    (hro : splitFirst openTag (B ++ closeTag ++ z2) = none)
    (hcy : splitFirst closeTag (B ++ closeTag ++ z2) = some (B, z2))
    (hz2 : splitFirst closeTag z2 = none) :
    emitFrom st (P ++ (z1 ++ openTag ++ B ++ closeTag ++ z2) :: S) =
      P.flatten ++ z1 ++ B ++ z2 ++ S.flatten := by
  rw [emitFrom_append, runFrom_plainN P hP st hm, emitFrom_plain P hP st, emitFrom]
  rw [stepChunk_openCloseEval ⟨false, st.thinkText, st.summaryText ++ P.flatten⟩
        z1 B z2 hz hro hcy hz2]
  show P.flatten ++ ((z1 ++ B ++ z2) ++
      emitFrom ⟨false, st.thinkText ++ B, st.summaryText ++ P.flatten ++ z1 ++ z2⟩ S) = _
  rw [emitFrom_plain S hS]
  simp [List.append_assoc]

/-! ### Claims -/

/-- Claim C8: for every input text containing neither marker literal,
classification yields an empty think output and an answer equal to the
input verbatim, both when the text is streamed in fragments and in the
one-shot result-panel split. -/
theorem c8_no_markers (t : List Char) (chunks : List (List Char))
    (hj : chunks.flatten = t)
    (ho : hasSub openTag t = false)
    (hc : hasSub closeTag t = false) :
    runStream chunks = ⟨false, [], t⟩ ∧ classifyComplete t = ⟨[], t, false⟩ := by
  constructor
  · have ho' : hasSub openTag chunks.flatten = false := by rw [hj]; exact ho
    have hc' : hasSub closeTag chunks.flatten = false := by rw [hj]; exact hc
    have hfree : ∀ f ∈ chunks, hasSub openTag f = false ∧ hasSub closeTag f = false := by
      intro f hf
      exact ⟨hasSub_chunk_of_flatten (by decide) hf ho',
             hasSub_chunk_of_flatten (by decide) hf hc'⟩
    rw [runStream, runFrom_plainN chunks hfree initState rfl]
    simp [initState, hj]
  · simp [classifyComplete, ho]

/-- Claim C8 witness: the spec's example, split into two fragments. -/
theorem c8_witness :
    runStream ["plain ".toList, "text".toList] = ⟨false, [], "plain text".toList⟩
    ∧ classifyComplete "plain text".toList = ⟨[], "plain text".toList, false⟩ :=
  c8_no_markers "plain text".toList ["plain ".toList, "text".toList]
    (by decide) (by decide) (by decide)

/-- Claim C9: when the fetched API key is missing (absent or empty), the
run start sets the configuration error message and returns before the
chunk listener is registered and before the generation request is
dispatched. -/
theorem c9_missing_key (k : Option (List Char)) (h : keyMissing k = true) :
    (handleGenerate k).dispatched = false ∧ (handleGenerate k).subscribed = false ∧
      (handleGenerate k).errorMsg ≠ [] := by
  simp [handleGenerate, h]

/-- Claim C9 witness: an absent key. -/
theorem c9_witness :
    (handleGenerate none).dispatched = false ∧ (handleGenerate none).subscribed = false ∧
      (handleGenerate none).errorMsg ≠ [] :=
  c9_missing_key none (by decide)

/-- Claim C5: split completeness of the one-shot result-panel split.  For
a text with at most one open tag and at most one close tag (in that
order) the returned pair loses no characters: when one of the tags is
absent the text is returned whole as the answer with an empty think part,
and for a well-formed text `A <think> B </think> C` the result is
`think = B`, `answer = A ++ C`, so re-inserting the two tag literals at
the split points (after `A` and after `B`) reproduces the input
`A ++ openTag ++ B ++ closeTag ++ C` exactly. -/
theorem c5_split_completeness (t A B C : List Char) :
    ((hasSub openTag t = false ∨ hasSub closeTag t = false) →
      classifyComplete t = ⟨[], t, false⟩)
    ∧ (splitFirst openTag (A ++ openTag ++ B ++ closeTag ++ C)
          = some (A, B ++ closeTag ++ C) →
       splitFirst openTag (B ++ closeTag ++ C) = none →
       splitFirst closeTag (B ++ closeTag ++ C) = some (B, C) →
       splitFirst closeTag C = none →
       classifyComplete (A ++ openTag ++ B ++ closeTag ++ C) = ⟨B, A ++ C, true⟩) := by
  constructor
  · intro h
    cases h with
    | inl h => simp [classifyComplete, h]
    | inr h => simp [classifyComplete, h]
  · intro h1 h2 h3 h4
    exact classifyComplete_wf A B C h1 h2 h3 h4

/-- Claim C5 witness: a marker-free text and the well-formed text
`x<think>y</think>z`. -/
theorem c5_witness :
    ((hasSub openTag "plain".toList = false ∨ hasSub closeTag "plain".toList = false) →
      classifyComplete "plain".toList = ⟨[], "plain".toList, false⟩)
    ∧ (splitFirst openTag ("x".toList ++ openTag ++ "y".toList ++ closeTag ++ "z".toList)
          = some ("x".toList, "y".toList ++ closeTag ++ "z".toList) →
       splitFirst openTag ("y".toList ++ closeTag ++ "z".toList) = none →
       splitFirst closeTag ("y".toList ++ closeTag ++ "z".toList) = some ("y".toList, "z".toList) →
       splitFirst closeTag "z".toList = none →
       classifyComplete ("x".toList ++ openTag ++ "y".toList ++ closeTag ++ "z".toList)
          = ⟨"y".toList, "x".toList ++ "z".toList, true⟩)
    ∧ classifyComplete ("x".toList ++ openTag ++ "y".toList ++ closeTag ++ "z".toList)
        = ⟨"y".toList, "x".toList ++ "z".toList, true⟩ :=
  ⟨(c5_split_completeness "plain".toList "x".toList "y".toList "z".toList).1,
   (c5_split_completeness "plain".toList "x".toList "y".toList "z".toList).2,
   (c5_split_completeness "plain".toList "x".toList "y".toList "z".toList).2
     (by decide) (by decide) (by decide) (by decide)⟩

/-- Claim C2 counterexample: the spec's partial-marker example.  The code
keeps no `pendingPartialMarker`, so markers split across fragment
boundaries are never reassembled: the run ends with an empty think
buffer and the whole raw text, tags included, in the answer buffer —
not `think = 'deep thoughts'`, `answer = 'Hello world'`. -/
theorem c2_counterexample :
    (runStream ["Hello <th".toList, "ink>deep ".toList,
        "thoughts</thi".toList, "nk>world".toList]).thinkText
      ≠ "deep thoughts".toList
    ∧ (runStream ["Hello <th".toList, "ink>deep ".toList,
        "thoughts</thi".toList, "nk>world".toList]).summaryText
      ≠ "Hello world".toList
    ∧ runStream ["Hello <th".toList, "ink>deep ".toList,
        "thoughts</thi".toList, "nk>world".toList]
      = ⟨false, [], "Hello <think>deep thoughts</think>world".toList⟩ := by decide

/-- Claim C2 amended: a marker literal split across fragment boundaries
is never detected.  When no fragment contains a complete tag literal the
classifier stays in NORMAL mode, the think buffer stays empty, and every
character — the split markers' characters included — is committed to the
answer buffer verbatim. -/
theorem c2_amended (chunks : List (List Char))
    (h : ∀ f ∈ chunks, hasSub openTag f = false ∧ hasSub closeTag f = false) :
    runStream chunks = ⟨false, [], chunks.flatten⟩ := by
  rw [runStream, runFrom_plainN chunks h initState rfl]
  simp [initState]

/-- Claim C2 witness: the spec's example fragments, each of which splits
a tag across a boundary. -/
theorem c2_witness :
    runStream ["Hello <th".toList, "ink>deep ".toList,
        "thoughts</thi".toList, "nk>world".toList]
      = ⟨false, [], "Hello <think>deep thoughts</think>world".toList⟩ := by
  have h := c2_amended ["Hello <th".toList, "ink>deep ".toList,
        "thoughts</thi".toList, "nk>world".toList] (by decide)
  rw [h]
  decide

/-- Claim C4 counterexample: after the close tag has been matched the
mode is NORMAL, but a later fragment containing the open tag flips the
classifier back to THINKING and its trailing text lands in the think
buffer — the THINKING→NORMAL transition is not permanent. -/
theorem c4_counterexample :
    (runStream ["<think>a</think>b".toList]).internalThinkMode = false
    ∧ (runStream ["<think>a</think>b".toList, "<think>c".toList]).internalThinkMode = true
    ∧ (runStream ["<think>a</think>b".toList, "<think>c".toList]).thinkText = "ac".toList
    ∧ (runStream ["<think>a</think>b".toList, "<think>c".toList]).summaryText = "b".toList := by
  decide

/-- Claim C4 amended: the open-tag check is not gated on any
"already left THINKING" flag: from any state — in particular one that has
already gone THINKING→NORMAL — a fragment containing the open tag (with
no close tag in its scanned remainder) re-enters THINKING mode; the tag
is not treated as ordinary answer text. -/
theorem c4_amended (st : ClassifierState) (c : List Char)
    (ho : hasSub openTag c = true)
    (hc : hasSub closeTag (partAfter openTag c) = false) :
    ((stepChunk st c).1).internalThinkMode = true := by
  simp [stepChunk, ho, hc]

/-- Claim C4 witness: a post-close NORMAL state fed a fragment containing
the open tag. -/
theorem c4_witness :
    ((stepChunk ⟨false, "a".toList, "b".toList⟩ "<think>c".toList).1).internalThinkMode = true :=
  c4_amended ⟨false, "a".toList, "b".toList⟩ "<think>c".toList (by decide) (by decide)

/-- Claim C6 counterexample: a second open-tag occurrence while the close
tag has never arrived.  The claim says the answer buffer holds only the
text before the open-marker (`'a'`) and the think buffer all text after
it (`'bx<think>y'`); the code instead re-splits on the second open tag,
sending `'x'` to the answer buffer and dropping the tag characters. -/
theorem c6_counterexample :
    (runStream ["a<think>b".toList, "x<think>y".toList]).summaryText ≠ "a".toList
    ∧ (runStream ["a<think>b".toList, "x<think>y".toList]).thinkText ≠ "bx<think>y".toList
    ∧ runStream ["a<think>b".toList, "x<think>y".toList]
        = ⟨true, "by".toList, "ax".toList⟩ := by decide

/-- Claim C6 amended: when exactly one open-tag occurrence arrives, whole
within one fragment, and no fragment carries a close tag (nor a further
open tag), the run ends still in THINKING mode, the think buffer holds
all text after the open tag, and the answer buffer only the text before
it. -/
theorem c6_amended (P M : List (List Char)) (x1 b1 : List Char)
    (hP : ∀ f ∈ P, hasSub openTag f = false ∧ hasSub closeTag f = false)
    (hM : ∀ f ∈ M, hasSub openTag f = false ∧ hasSub closeTag f = false)
    (hx : splitFirst openTag (x1 ++ openTag ++ b1) = some (x1, b1))
    (hb1o : splitFirst openTag b1 = none)
    (hb1c : hasSub closeTag b1 = false) :
    runStream (P ++ (x1 ++ openTag ++ b1) :: M) = ⟨true, b1 ++ M.flatten, P.flatten ++ x1⟩ := by
  rw [runStream, runFrom_phaseOpen initState rfl P M x1 b1 hP hM hx hb1o hb1c]
  simp [initState]

/-- Claim C6 witness: the spec's still-thinking example, fragments
`['<think>', 'still reasoning']`. -/
theorem c6_witness :
    runStream ["<think>".toList, "still reasoning".toList]
      = ⟨true, "still reasoning".toList, []⟩ := by
  have h := c6_amended [] ["still reasoning".toList] [] []
    (by decide) (by decide) (by decide) (by decide) (by decide)
  simpa [openTag] using h

/-- Claim C7 counterexample: a close tag arriving in NORMAL mode with no
preceding open tag.  The claim says the surrounding text is absorbed as
ordinary answer text; the code instead routes the text before the stray
close tag into the think buffer. -/
theorem c7_counterexample :
    (runStream ["a</think>b".toList]).summaryText ≠ "a</think>b".toList
    ∧ (runStream ["a</think>b".toList]).thinkText = "a".toList
    ∧ (runStream ["a</think>b".toList]).internalThinkMode = false := by decide

/-- Claim C7 amended: a stray close tag in NORMAL mode is indeed no fatal
error and classification continues in NORMAL mode, but the tag is still
specially interpreted — the close-tag check is not gated on THINKING
mode, so the text before the stray tag goes to the think buffer and only
the text after it to the answer buffer. -/
theorem c7_amended (st : ClassifierState) (a b : List Char)
    (_hm : st.internalThinkMode = false)
    (ho : hasSub openTag (a ++ closeTag ++ b) = false)
    (hy : splitFirst closeTag (a ++ closeTag ++ b) = some (a, b))
    (hb : splitFirst closeTag b = none) :
    stepChunk st (a ++ closeTag ++ b) =
      ({ internalThinkMode := false, thinkText := st.thinkText ++ a,
         summaryText := st.summaryText ++ b }, a ++ b) :=
  stepChunk_closeEval st a b ho hy hb

/-- Claim C7 witness: the fresh NORMAL-mode state fed `'a</think>b'`. -/
theorem c7_witness :
    stepChunk initState ("a".toList ++ closeTag ++ "b".toList) =
      ({ internalThinkMode := false, thinkText := "a".toList,
         summaryText := "b".toList }, "ab".toList) := by
  have h := c7_amended initState "a".toList "b".toList rfl
    (by decide) (by decide) (by decide)
  rw [h]
  decide

/-- Claim C1 counterexample: the partition `['<th', 'ink>a</think>b']` of
`'<think>a</think>b'` splits the open tag across the boundary.  One-shot
classification gives `think = 'a'`; the streamed run never detects the
split open tag and gives `think = 'ink>a'`. -/
theorem c1_counterexample :
    "<th".toList ++ "ink>a</think>b".toList = "<think>a</think>b".toList
    ∧ (runStream ["<th".toList, "ink>a</think>b".toList]).thinkText
        ≠ (classifyComplete "<think>a</think>b".toList).thinkContent
    ∧ (runStream ["<th".toList, "ink>a</think>b".toList]).summaryText
        ≠ (classifyComplete "<think>a</think>b".toList).mainContent := by decide

/-- Claim C1 amended: streaming/one-shot agreement holds for well-formed
streams — the text carries exactly one open-tag occurrence followed by
exactly one close-tag occurrence, and the partition places each tag
literal whole inside a single fragment.  Both placements are covered:
the two tags in two distinct fragments (first conjunct), and the two
tags inside the same fragment — including the single-fragment partition —
(second conjunct).  In each case feeding the fragments one-by-one yields
the same think/answer pair as the one-shot split of the concatenation.
Partitions splitting a tag across fragments are excluded: the
counterexample shows the code reassembles nothing at a boundary. -/
theorem c1_amended (P M S : List (List Char)) (x1 b1 b2 c1 z1 B z2 : List Char) :
    ((∀ f ∈ P, hasSub openTag f = false ∧ hasSub closeTag f = false) →
     (∀ f ∈ M, hasSub openTag f = false ∧ hasSub closeTag f = false) →
     (∀ f ∈ S, hasSub openTag f = false ∧ hasSub closeTag f = false) →
     splitFirst openTag (x1 ++ openTag ++ b1) = some (x1, b1) →
     splitFirst openTag b1 = none →
     hasSub closeTag b1 = false →
     hasSub openTag (b2 ++ closeTag ++ c1) = false →
     splitFirst closeTag (b2 ++ closeTag ++ c1) = some (b2, c1) →
     splitFirst closeTag c1 = none →
     splitFirst openTag
        (P.flatten ++ x1 ++ openTag ++ b1 ++ M.flatten ++ b2 ++ closeTag ++ c1 ++ S.flatten)
        = some (P.flatten ++ x1, b1 ++ M.flatten ++ b2 ++ closeTag ++ c1 ++ S.flatten) →
     splitFirst openTag (b1 ++ M.flatten ++ b2 ++ closeTag ++ c1 ++ S.flatten) = none →
     splitFirst closeTag (b1 ++ M.flatten ++ b2 ++ closeTag ++ c1 ++ S.flatten)
        = some (b1 ++ M.flatten ++ b2, c1 ++ S.flatten) →
     splitFirst closeTag (c1 ++ S.flatten) = none →
     (runStream (P ++ (x1 ++ openTag ++ b1) :: M ++ (b2 ++ closeTag ++ c1) :: S)).thinkText
        = (classifyComplete ((P ++ (x1 ++ openTag ++ b1) :: M
            ++ (b2 ++ closeTag ++ c1) :: S).flatten)).thinkContent
     ∧ (runStream (P ++ (x1 ++ openTag ++ b1) :: M ++ (b2 ++ closeTag ++ c1) :: S)).summaryText
        = (classifyComplete ((P ++ (x1 ++ openTag ++ b1) :: M
            ++ (b2 ++ closeTag ++ c1) :: S).flatten)).mainContent)
    ∧ ((∀ f ∈ P, hasSub openTag f = false ∧ hasSub closeTag f = false) →
       (∀ f ∈ S, hasSub openTag f = false ∧ hasSub closeTag f = false) →
       splitFirst openTag (z1 ++ openTag ++ B ++ closeTag ++ z2)
          = some (z1, B ++ closeTag ++ z2) →
       splitFirst openTag (B ++ closeTag ++ z2) = none →
       splitFirst closeTag (B ++ closeTag ++ z2) = some (B, z2) →
       splitFirst closeTag z2 = none →
       splitFirst openTag (P.flatten ++ z1 ++ openTag ++ B ++ closeTag ++ z2 ++ S.flatten)
          = some (P.flatten ++ z1, B ++ closeTag ++ z2 ++ S.flatten) →
       splitFirst openTag (B ++ closeTag ++ z2 ++ S.flatten) = none →
       splitFirst closeTag (B ++ closeTag ++ z2 ++ S.flatten) = some (B, z2 ++ S.flatten) →
       splitFirst closeTag (z2 ++ S.flatten) = none →
       (runStream (P ++ (z1 ++ openTag ++ B ++ closeTag ++ z2) :: S)).thinkText
          = (classifyComplete
              ((P ++ (z1 ++ openTag ++ B ++ closeTag ++ z2) :: S).flatten)).thinkContent
       ∧ (runStream (P ++ (z1 ++ openTag ++ B ++ closeTag ++ z2) :: S)).summaryText
          = (classifyComplete
              ((P ++ (z1 ++ openTag ++ B ++ closeTag ++ z2) :: S).flatten)).mainContent) := by
  constructor
  · intro hP hM hS hx hb1o hb1c hyo hy hc1 hT1 hT2 hT3 hT4
    have hrun := runFrom_full initState rfl P M S x1 b1 b2 c1 hP hM hS hx hb1o hb1c hyo hy hc1
    have hT1u : splitFirst openTag
        ((P.flatten ++ x1) ++ openTag ++ (b1 ++ M.flatten ++ b2) ++ closeTag ++ (c1 ++ S.flatten))
        = some (P.flatten ++ x1, (b1 ++ M.flatten ++ b2) ++ closeTag ++ (c1 ++ S.flatten)) := by
      simpa [List.append_assoc] using hT1
    have hT2u : splitFirst openTag ((b1 ++ M.flatten ++ b2) ++ closeTag ++ (c1 ++ S.flatten))
        = none := by
      simpa [List.append_assoc] using hT2
    have hT3u : splitFirst closeTag ((b1 ++ M.flatten ++ b2) ++ closeTag ++ (c1 ++ S.flatten))
        = some (b1 ++ M.flatten ++ b2, c1 ++ S.flatten) := by
      simpa [List.append_assoc] using hT3
    have hwf := classifyComplete_wf (P.flatten ++ x1) (b1 ++ M.flatten ++ b2) (c1 ++ S.flatten)
      hT1u hT2u hT3u hT4
    have harg : (P ++ (x1 ++ openTag ++ b1) :: M ++ (b2 ++ closeTag ++ c1) :: S).flatten
        = (P.flatten ++ x1) ++ openTag ++ (b1 ++ M.flatten ++ b2) ++ closeTag
          ++ (c1 ++ S.flatten) := by
      simp [List.append_assoc]
    rw [runStream, hrun, harg, hwf]
    constructor
    · simp [initState, List.append_assoc]
    · simp [initState, List.append_assoc]
  · intro hP hS hz hro hcy hz2 hT1 hT2 hT3 hT4
    have hrun := runFrom_sameFrag initState rfl P S z1 B z2 hP hS hz hro hcy hz2
    have hT1u : splitFirst openTag
        ((P.flatten ++ z1) ++ openTag ++ B ++ closeTag ++ (z2 ++ S.flatten))
        = some (P.flatten ++ z1, B ++ closeTag ++ (z2 ++ S.flatten)) := by
      simpa [List.append_assoc] using hT1
    have hT2u : splitFirst openTag (B ++ closeTag ++ (z2 ++ S.flatten)) = none := by
      simpa [List.append_assoc] using hT2
    have hT3u : splitFirst closeTag (B ++ closeTag ++ (z2 ++ S.flatten))
        = some (B, z2 ++ S.flatten) := by
      simpa [List.append_assoc] using hT3
    have hwf := classifyComplete_wf (P.flatten ++ z1) B (z2 ++ S.flatten) hT1u hT2u hT3u hT4
    have harg : (P ++ (z1 ++ openTag ++ B ++ closeTag ++ z2) :: S).flatten
        = (P.flatten ++ z1) ++ openTag ++ B ++ closeTag ++ (z2 ++ S.flatten) := by
      simp [List.append_assoc]
    rw [runStream, hrun, harg, hwf]
    constructor
    · simp [initState]
    · simp [initState, List.append_assoc]

/-- Claim C1 witness: fragments `['A', 'a<think>b', 'm', 'c</think>d', 's']`
for the distinct-fragment case and fragments `['A', 'e<think>f</think>g', 's']`
for the same-fragment case. -/
theorem c1_witness :
    ((runStream (["A".toList] ++ ("a".toList ++ openTag ++ "b".toList) :: ["m".toList]
        ++ ("c".toList ++ closeTag ++ "d".toList) :: ["s".toList])).thinkText
      = (classifyComplete ((["A".toList] ++ ("a".toList ++ openTag ++ "b".toList) :: ["m".toList]
          ++ ("c".toList ++ closeTag ++ "d".toList) :: ["s".toList]).flatten)).thinkContent
    ∧ (runStream (["A".toList] ++ ("a".toList ++ openTag ++ "b".toList) :: ["m".toList]
        ++ ("c".toList ++ closeTag ++ "d".toList) :: ["s".toList])).summaryText
      = (classifyComplete ((["A".toList] ++ ("a".toList ++ openTag ++ "b".toList) :: ["m".toList]
          ++ ("c".toList ++ closeTag ++ "d".toList) :: ["s".toList]).flatten)).mainContent)
    ∧ ((runStream (["A".toList]
          ++ ("e".toList ++ openTag ++ "f".toList ++ closeTag ++ "g".toList)
          :: ["s".toList])).thinkText
      = (classifyComplete ((["A".toList]
          ++ ("e".toList ++ openTag ++ "f".toList ++ closeTag ++ "g".toList)
          :: ["s".toList]).flatten)).thinkContent
    ∧ (runStream (["A".toList]
          ++ ("e".toList ++ openTag ++ "f".toList ++ closeTag ++ "g".toList)
          :: ["s".toList])).summaryText
      = (classifyComplete ((["A".toList]
          ++ ("e".toList ++ openTag ++ "f".toList ++ closeTag ++ "g".toList)
          :: ["s".toList]).flatten)).mainContent) :=
  ⟨(c1_amended ["A".toList] ["m".toList] ["s".toList] "a".toList "b".toList "c".toList
      "d".toList "e".toList "f".toList "g".toList).1
    (by decide) (by decide) (by decide) (by decide) (by decide) (by decide) (by decide)
    (by decide) (by decide) (by decide) (by decide) (by decide) (by decide),
   (c1_amended ["A".toList] ["m".toList] ["s".toList] "a".toList "b".toList "c".toList
      "d".toList "e".toList "f".toList "g".toList).2
    (by decide) (by decide) (by decide) (by decide) (by decide) (by decide) (by decide)
    (by decide) (by decide) (by decide)⟩

/-- Claim C3 counterexample: with both markers fully arrived in
`'<think>a</think>b</think>c'`, the committed text is `'ab'`, while the
input with each marker removed exactly once is `'ab</think>c'`: the
`split(...)[1]` truncation drops `'</think>c'` entirely. -/
theorem c3_counterexample :
    emitFrom initState ["<think>a</think>b</think>c".toList] = "ab".toList
    ∧ emitFrom initState ["<think>a</think>b</think>c".toList] ≠ "ab</think>c".toList := by
  decide

/-- Claim C3 amended: for a well-formed stream (exactly one open tag then
one close tag, each whole inside one fragment — whether in two distinct
fragments, first conjunct, or both inside the same fragment, second
conjunct), the invariant holds on the prefixes the claim constrains:
after a prefix in which no marker has appeared the committed text (in
classification order) equals the consumed input verbatim, and after any
prefix containing both marker occurrences it equals the consumed input
with the single open-tag and close-tag occurrences deleted.  On
malformed input (extra marker occurrences) the code drops characters, as
the counterexample shows. -/
theorem c3_amended (P M S : List (List Char)) (x1 b1 b2 c1 z1 B z2 : List Char) (n k : Nat) :
    ((∀ f ∈ P, hasSub openTag f = false ∧ hasSub closeTag f = false) →
     (∀ f ∈ M, hasSub openTag f = false ∧ hasSub closeTag f = false) →
     (∀ f ∈ S, hasSub openTag f = false ∧ hasSub closeTag f = false) →
     splitFirst openTag (x1 ++ openTag ++ b1) = some (x1, b1) →
     splitFirst openTag b1 = none →
     hasSub closeTag b1 = false →
     hasSub openTag (b2 ++ closeTag ++ c1) = false →
     splitFirst closeTag (b2 ++ closeTag ++ c1) = some (b2, c1) →
     splitFirst closeTag c1 = none →
     n ≤ P.length →
     emitFrom initState
        ((P ++ (x1 ++ openTag ++ b1) :: M ++ (b2 ++ closeTag ++ c1) :: S).take n)
       = ((P ++ (x1 ++ openTag ++ b1) :: M ++ (b2 ++ closeTag ++ c1) :: S).take n).flatten
     ∧ emitFrom initState (P ++ (x1 ++ openTag ++ b1) :: M ++ (b2 ++ closeTag ++ c1) :: S.take k)
       = P.flatten ++ x1 ++ b1 ++ M.flatten ++ b2 ++ c1 ++ (S.take k).flatten)
    ∧ ((∀ f ∈ P, hasSub openTag f = false ∧ hasSub closeTag f = false) →
       (∀ f ∈ S, hasSub openTag f = false ∧ hasSub closeTag f = false) →
       splitFirst openTag (z1 ++ openTag ++ B ++ closeTag ++ z2)
          = some (z1, B ++ closeTag ++ z2) →
       splitFirst openTag (B ++ closeTag ++ z2) = none →
       splitFirst closeTag (B ++ closeTag ++ z2) = some (B, z2) →
       splitFirst closeTag z2 = none →
       n ≤ P.length →
       emitFrom initState ((P ++ (z1 ++ openTag ++ B ++ closeTag ++ z2) :: S).take n)
         = ((P ++ (z1 ++ openTag ++ B ++ closeTag ++ z2) :: S).take n).flatten
       ∧ emitFrom initState (P ++ (z1 ++ openTag ++ B ++ closeTag ++ z2) :: S.take k)
         = P.flatten ++ z1 ++ B ++ z2 ++ (S.take k).flatten) := by
  constructor
  · intro hP hM hS hx hb1o hb1c hyo hy hc1 hn
    constructor
    · have h1 : n ≤ (P ++ (x1 ++ openTag ++ b1) :: M).length := by
        rw [List.length_append]
        exact le_trans hn (Nat.le_add_right P.length _)
      rw [List.take_append_of_le_length h1, List.take_append_of_le_length hn]
      exact emitFrom_plain (P.take n) (fun f hf => hP f (List.take_subset n P hf)) initState
    · exact emitFrom_full initState rfl P M (S.take k) x1 b1 b2 c1 hP hM
        (fun f hf => hS f (List.take_subset k S hf)) hx hb1o hb1c hyo hy hc1
  · intro hP hS hz hro hcy hz2 hn
    constructor
    · rw [List.take_append_of_le_length hn]
      exact emitFrom_plain (P.take n) (fun f hf => hP f (List.take_subset n P hf)) initState
    · exact emitFrom_sameFrag initState rfl P (S.take k) z1 B z2 hP
        (fun f hf => hS f (List.take_subset k S hf)) hz hro hcy hz2

/-- Claim C3 witness: fragments `['A', 'a<think>b', 'm', 'c</think>d', 's']`
for the distinct-fragment case and `['A', 'e<think>f</think>g', 's']` for
the same-fragment case, prefix length 1 and full suffix. -/
theorem c3_witness :
    (emitFrom initState
        ((["A".toList] ++ ("a".toList ++ openTag ++ "b".toList) :: ["m".toList]
          ++ ("c".toList ++ closeTag ++ "d".toList) :: ["s".toList]).take 1)
      = ((["A".toList] ++ ("a".toList ++ openTag ++ "b".toList) :: ["m".toList]
          ++ ("c".toList ++ closeTag ++ "d".toList) :: ["s".toList]).take 1).flatten
    ∧ emitFrom initState (["A".toList] ++ ("a".toList ++ openTag ++ "b".toList) :: ["m".toList]
          ++ ("c".toList ++ closeTag ++ "d".toList) :: (["s".toList].take 1))
      = (["A".toList]).flatten ++ "a".toList ++ "b".toList ++ (["m".toList]).flatten
          ++ "c".toList ++ "d".toList ++ ((["s".toList].take 1)).flatten)
    ∧ (emitFrom initState
        ((["A".toList] ++ ("e".toList ++ openTag ++ "f".toList ++ closeTag ++ "g".toList)
          :: ["s".toList]).take 1)
      = ((["A".toList] ++ ("e".toList ++ openTag ++ "f".toList ++ closeTag ++ "g".toList)
          :: ["s".toList]).take 1).flatten
    ∧ emitFrom initState (["A".toList]
          ++ ("e".toList ++ openTag ++ "f".toList ++ closeTag ++ "g".toList)
          :: (["s".toList].take 1))
      = (["A".toList]).flatten ++ "e".toList ++ "f".toList ++ "g".toList
          ++ ((["s".toList].take 1)).flatten) :=
  ⟨(c3_amended ["A".toList] ["m".toList] ["s".toList] "a".toList "b".toList "c".toList
      "d".toList "e".toList "f".toList "g".toList 1 1).1
    (by decide) (by decide) (by decide) (by decide) (by decide) (by decide) (by decide)
    (by decide) (by decide) (by decide),
   (c3_amended ["A".toList] ["m".toList] ["s".toList] "a".toList "b".toList "c".toList
      "d".toList "e".toList "f".toList "g".toList 1 1).2
    (by decide) (by decide) (by decide) (by decide) (by decide) (by decide) (by decide)⟩

/-- Claim C10 counterexample: in
`'a<think>b</think>c</think>d'` the text after the first close-tag
occurrence is `'c</think>d'` (first conjunct identifies that occurrence),
yet the copy extraction keeps only `'c'` — `split('</think>')[1]` is the
segment before the second occurrence, not the whole tail. -/
theorem c10_counterexample :
    splitFirst closeTag "a<think>b</think>c</think>d".toList
      = some ("a<think>b".toList, "c</think>d".toList)
    ∧ copyExtract "a<think>b</think>c</think>d".toList ≠ "c</think>d".toList
    ∧ copyExtract "a<think>b</think>c</think>d".toList = "c".toList := by decide

/-- Claim C10 amended: for a stored text `A <think> B </think> C` whose
close tag occurs exactly once, the copy extraction keeps exactly `C` —
the text after the (single) close tag — discarding the pre-open answer
text `A`, unlike the redisplay split, whose answer is `A ++ C`.  (When
the close tag occurs more than once the extraction keeps only the
segment before its second occurrence, as the counterexample shows.) -/
theorem c10_amended (A B C : List Char)
    (h1 : splitFirst openTag (A ++ openTag ++ B ++ closeTag ++ C)
        = some (A, B ++ closeTag ++ C))
    (h2 : splitFirst openTag (B ++ closeTag ++ C) = none)
    (h3 : splitFirst closeTag (B ++ closeTag ++ C) = some (B, C))
    (h4 : splitFirst closeTag C = none)
    (h5 : splitFirst closeTag (A ++ openTag ++ B ++ closeTag ++ C)
        = some (A ++ openTag ++ B, C)) :
    copyExtract (A ++ openTag ++ B ++ closeTag ++ C) = C
    ∧ classifyComplete (A ++ openTag ++ B ++ closeTag ++ C) = ⟨B, A ++ C, true⟩ := by
  constructor
  · have ho : hasSub openTag (A ++ openTag ++ B ++ closeTag ++ C) = true :=
      hasSub_of_splitFirst h1
    have hc : hasSub closeTag (A ++ openTag ++ B ++ closeTag ++ C) = true :=
      hasSub_of_splitFirst h5
    have hafter := partAfter_eq h5 h4
    simp only [copyExtract, ho, hc, Bool.and_self, if_true, hafter]
  · exact classifyComplete_wf A B C h1 h2 h3 h4

/-- Claim C10 witness: stored text `'a<think>b</think>c'`. -/
theorem c10_witness :
    copyExtract ("a".toList ++ openTag ++ "b".toList ++ closeTag ++ "c".toList) = "c".toList
    ∧ classifyComplete ("a".toList ++ openTag ++ "b".toList ++ closeTag ++ "c".toList)
        = ⟨"b".toList, "a".toList ++ "c".toList, true⟩ :=
  c10_amended "a".toList "b".toList "c".toList
    (by decide) (by decide) (by decide) (by decide) (by decide)
